import Mathlib

/-
Verification of the Monarch Amex sync script (src/sync_amex.py).

The script reconciles additional-card transactions with main-card
transactions inside the Monarch Money ledger: matching transactions on a
(date, amount, normalized merchant name) key, marking matched main-card
transactions as SHARED, and tagging the additional-card transaction with a
sync tag.  This file gives a shallow embedding of the pure core of that
script and proves its stated properties.

Modelling conventions:
  - amounts are exact numbers (Int); the script only ever compares amounts
    for equality inside the matching key;
  - the remote ledger is modelled explicitly where a property needs it
    (applying mutations for idempotence, and a consistent paginated source
    for the fetcher);
  - Python truthiness on optional strings / lists is modelled explicitly
    (pyStrOr, Option.getD).
-/

namespace SyncAmex

/-- ASCII lower-casing of one character, as Python str.lower acts on the
ASCII letters the script compares. -/
def lowerChar (c : Char) : Char :=
  if 65 ≤ c.toNat ∧ c.toNat ≤ 90 then Char.ofNat (c.toNat + 32) else c

/-- ASCII upper-casing of one character, as Python str.upper acts on the
ASCII letters the script compares. -/
def upperChar (c : Char) : Char :=
  if 97 ≤ c.toNat ∧ c.toNat ≤ 122 then Char.ofNat (c.toNat - 32) else c

/-- str.lower over a whole string. -/
def strLower (s : String) : String := ⟨s.data.map lowerChar⟩

/-- str.upper over a whole string. -/
def strUpper (s : String) : String := ⟨s.data.map upperChar⟩

/-- The whitespace characters str.strip removes by default. -/
def isSpaceChar (c : Char) : Bool :=
  c.toNat = 32 ∨ c.toNat = 9 ∨ c.toNat = 10 ∨ c.toNat = 13 ∨ c.toNat = 11 ∨ c.toNat = 12

/-- str.strip: drop leading and trailing whitespace. -/
def strStrip (s : String) : String :=
  ⟨((s.data.dropWhile isSpaceChar).reverse.dropWhile isSpaceChar).reverse⟩

/-- A transaction tag: the pair of id and name, as returned by the
GetHouseholdTransactionTags query and carried on each transaction. -/
structure Tag where
  id : String
  name : String
deriving DecidableEq

/-- The merchant record attached to a transaction; its name field may be
absent, matching the GraphQL shape the script reads. -/
structure Merchant where
  name : Option String
deriving DecidableEq

/-- The normalized transaction shape produced by fetch_transactions:
id, date, amount, description, owner ("SHARED" or "INDIVIDUAL"), optional
merchant record and tag list. -/
structure Txn where
  id : String
  date : String
  amount : Int
  description : String
  owner : String
  merchant : Option Merchant
  tags : List Tag
deriving DecidableEq

/-- The raw transaction record as returned by Web_GetTransactionsList,
before the normalization in fetch_transactions. -/
structure RawTxn where
  id : String
  date : String
  amount : Int
  plaidName : Option String
  notes : Option String
  ownedByUser : Option String
  merchant : Option Merchant
  tags : Option (List Tag)
deriving DecidableEq

/-- Python `a or b` on an optional string: `None` and the empty string are
falsy and fall through to `b`. -/
def pyStrOr (a : Option String) (b : String) : String :=
  match a with
  | none => b
  | some s => if s = "" then b else s

/-- The per-record normalization inside fetch_transactions:
description from plaidName or notes, owner derived from ownedByUser
(absent attribution means SHARED), tags defaulting to the empty list. -/
def normalize (t : RawTxn) : Txn :=
  { id := t.id
  , date := t.date
  , amount := t.amount
  , description := pyStrOr t.plaidName (pyStrOr t.notes "")
  , owner := if t.ownedByUser.isNone then "SHARED" else "INDIVIDUAL"
  , merchant := t.merchant
  , tags := t.tags.getD [] }

/-- Modelled from the spec: the remote paginated source behind
Web_GetTransactionsList, which is not part of the repository.  A source is
the fixed ordered list `all` of raw transactions; a page request at
`offset` with limit 200 returns `(all.drop offset).take 200` and the
source-reported total is `all.length` (the script reads
totalSelectableCount or totalCount, both of which equal the number of
records of a consistent source).  `fetchPages` is the while-loop of
fetch_transactions: append the normalized batch, advance the offset by the
number of records returned, and stop as soon as the offset reaches the
total or a page comes back empty. -/
def fetchPages (all : List RawTxn) (offset : Nat) (acc : List Txn) : List Txn :=
  let batch := (all.drop offset).take 200
  let acc2 := acc ++ batch.map normalize
  let offset2 := offset + batch.length
  if offset2 ≥ all.length ∨ batch = [] then acc2
  else fetchPages all offset2 acc2
termination_by all.length - offset
decreasing_by
  rename_i h
  simp only [not_or] at h
  have hb : 0 < ((all.drop offset).take 200).length := List.length_pos.mpr h.2
  omega

/-- fetch_transactions: run the pagination loop from offset 0 with an empty
accumulator. -/
def fetch_transactions (all : List RawTxn) : List Txn :=
  fetchPages all 0 []

/-- The error message of ensure_tag_id when no tag matches (the quotes
around the tag name in the original f-string are omitted here). -/
def tagNotFoundMessage (name : String) : String :=
  "Tag " ++ name ++ " not found in householdTransactionTags. " ++
    "Please create it in Monarch first (e.g. as a transaction tag) and rerun."

/-- ensure_tag_id: scan the household tag catalog in order and return the
id of the first tag whose name matches case-insensitively; otherwise fail
with the not-found message.  The catalog list is the query's result; the
function never adds to it. -/
def ensure_tag_id (tags : List Tag) (name : String) : Except String String :=
  match tags.find? (fun t => decide (strLower t.name = strLower name)) with
  | some t => Except.ok t.id
  | none => Except.error (tagNotFoundMessage name)

/-- has_sync_tag: true when some tag on the transaction has the sync tag
name, compared case-insensitively. -/
def has_sync_tag (txn : Txn) (sync_tag_name : String) : Bool :=
  txn.tags.any (fun t => decide (strLower t.name = strLower sync_tag_name))

/-- The merchant-name extraction in key_for:
`(txn.get("merchant") or {}).get("name") or ""`. -/
def merchantNameOf (txn : Txn) : String :=
  match txn.merchant with
  | none => ""
  | some m => m.name.getD ""

/-- The matching key type: (date, amount, normalized merchant name). -/
abbrev MatchKey := String × Int × String

/-- key_for: the (date, amount, merchant_name stripped and lower-cased)
matching key of a transaction. -/
def key_for (txn : Txn) : MatchKey :=
  (txn.date, txn.amount, strLower (strStrip (merchantNameOf txn)))

/-- One step of building the main-card index:
`main_index.setdefault(k, []).append(t)` on an association list — append
to the existing bucket of `k`, or add a new (k, [t]) entry at the end. -/
def indexInsert (idx : List (MatchKey × List Txn)) (k : MatchKey) (t : Txn) :
    List (MatchKey × List Txn) :=
  match idx with
  | [] => [(k, [t])]
  | (k0, b) :: rest =>
      if k0 = k then (k0, b ++ [t]) :: rest else (k0, b) :: indexInsert rest k t

/-- buildIndex: the loop `for t in main_txns: main_index.setdefault(key_for(t), []).append(t)`. -/
def buildIndex (txns : List Txn) : List (MatchKey × List Txn) :=
  txns.foldl (fun idx t => indexInsert idx (key_for t) t) []

/-- indexLookup: `main_index.get(k, [])`. -/
def indexLookup (idx : List (MatchKey × List Txn)) (k : MatchKey) : List Txn :=
  match idx with
  | [] => []
  | (k0, b) :: rest => if k0 = k then b else indexLookup rest k

/-- The bucket of a key, described directly: all main-card transactions
whose key equals `k`, in fetch order. -/
def bucketOf (mains : List Txn) (k : MatchKey) : List Txn :=
  mains.filter (fun m => decide (key_for m = k))

/-- The shared-owner test of the main loop:
`(m.get("owner") or "").upper() == "SHARED"`. -/
def isSharedOwner (m : Txn) : Bool :=
  decide (strUpper m.owner = "SHARED")

/-- existing_tag_ids: the ids of the tags currently on a transaction. -/
def tagIdsOf (t : Txn) : List String :=
  t.tags.map Tag.id

/-- The remote mutations the script can issue: Web_UpdateTransactionOverview
setting ownerUserId to null (setOwnerShared) and Web_SetTransactionTags
replacing the tag-id set (updateTagsReplace). -/
inductive Mutation where
  | setOwnerShared (txnId : String)
  | updateTagsReplace (txnId : String) (tagIds : List String)
deriving DecidableEq

/-- The three per-candidate outcomes of the main loop. -/
inductive Classification where
  | NO_MATCH
  | EXISTING_SHARED
  | NEW_SHARED
deriving DecidableEq

/-- The tag-update part of both live branches: only issue the replace
mutation when the sync tag id is not already among the existing tag ids,
and the new id list is the existing ids with the sync tag id appended. -/
def labelMutations (tag_id : String) (addl : Txn) : List Mutation :=
  let existing_tag_ids := tagIdsOf addl
  if tag_id ∈ existing_tag_ids then []
  else [Mutation.updateTagsReplace addl.id (existing_tag_ids ++ [tag_id])]

/-- One iteration of the main loop on a candidate: look up the bucket,
classify, and compute the mutations the live branches would issue (the
dry-run branches issue none). -/
def processCandidate (index : List (MatchKey × List Txn)) (tag_id : String)
    (dry_run : Bool) (addl : Txn) : Classification × List Mutation :=
  let mains := indexLookup index (key_for addl)
  if mains = [] then
    (Classification.NO_MATCH, [])
  else
    let shared_mains := mains.filter isSharedOwner
    if shared_mains ≠ [] then
      (Classification.EXISTING_SHARED, if dry_run then [] else labelMutations tag_id addl)
    else
      (Classification.NEW_SHARED,
        if dry_run then [] else
          mains.map (fun m => Mutation.setOwnerShared m.id) ++ labelMutations tag_id addl)

/-- The observable outcome of a run: the three counters, the per-candidate
log of classifications, and the issued mutations in order. -/
structure RunResult where
  countExistingShared : Nat
  countNewShared : Nat
  countNoMatch : Nat
  log : List (Txn × Classification)
  muts : List Mutation
deriving DecidableEq

/-- Folding one candidate's outcome into the accumulated run result:
exactly one counter is bumped, the log gains one entry, and the candidate's
mutations are appended. -/
def stepResult (acc : RunResult) (addl : Txn) (c : Classification)
    (ms : List Mutation) : RunResult :=
  { countExistingShared :=
      acc.countExistingShared + (if c = Classification.EXISTING_SHARED then 1 else 0)
  , countNewShared :=
      acc.countNewShared + (if c = Classification.NEW_SHARED then 1 else 0)
  , countNoMatch :=
      acc.countNoMatch + (if c = Classification.NO_MATCH then 1 else 0)
  , log := acc.log ++ [(addl, c)]
  , muts := acc.muts ++ ms }

/-- The main loop over the filtered candidates. -/
def runLoop (index : List (MatchKey × List Txn)) (tag_id : String) (dry_run : Bool) :
    List Txn → RunResult → RunResult
  | [], acc => acc
  | addl :: rest, acc =>
      let pc := processCandidate index tag_id dry_run addl
      runLoop index tag_id dry_run rest (stepResult acc addl pc.1 pc.2)

/-- The candidate filter:
`[t for t in addl_txns if not has_sync_tag(t, SYNC_TAG_NAME)]`. -/
def candidatesOf (addls : List Txn) (sync_name : String) : List Txn :=
  addls.filter (fun t => !has_sync_tag t sync_name)

/-- The reconciliation part of main(): build the index over the main-card
list, filter the additional-card list, and run the loop from zeroed
counters. -/
def runEngine (mains addls : List Txn) (tag_id sync_name : String)
    (dry_run : Bool) : RunResult :=
  runLoop (buildIndex mains) tag_id dry_run (candidatesOf addls sync_name)
    { countExistingShared := 0, countNewShared := 0, countNoMatch := 0
    , log := [], muts := [] }

/-- The DRY_RUN flag: `os.getenv("DRY_RUN", "true").lower() != "false"`,
over the optional value of the environment variable. -/
def dryRunFlag (v : Option String) : Bool :=
  decide (strLower (v.getD "true") ≠ "false")

/-- Modelled from the spec: the remote ledger's application of one mutation
to one of its transaction records (the ledger itself is not part of the
repository).  Setting ownerUserId to null makes the record re-fetch as
owner = "SHARED"; replacing the tag set installs exactly the requested tag
ids, with names resolved through the household catalog `tagNameOf`. -/
def applyMutTxn (tagNameOf : String → String) (t : Txn) (m : Mutation) : Txn :=
  match m with
  | Mutation.setOwnerShared i =>
      if t.id = i then { t with owner := "SHARED" } else t
  | Mutation.updateTagsReplace i ids =>
      if t.id = i then { t with tags := ids.map (fun j => { id := j, name := tagNameOf j }) } else t

/-- Apply a list of mutations, in order, to one transaction record. -/
def applyTxn (tagNameOf : String → String) (muts : List Mutation) (t : Txn) : Txn :=
  muts.foldl (applyMutTxn tagNameOf) t

/-- Apply a list of mutations to a fetched transaction list: what a
re-fetch returns after the remote ledger has processed the mutations. -/
def applyMuts (tagNameOf : String → String) (muts : List Mutation)
    (ts : List Txn) : List Txn :=
  ts.map (applyTxn tagNameOf muts)

/-- Tag-replacement mutations issued by this script always include the sync
tag id in the new id list; ownership mutations satisfy this vacuously. -/
def MutOk (tag_id : String) (m : Mutation) : Prop :=
  ∀ i ids, m = Mutation.updateTagsReplace i ids → tag_id ∈ ids

/-! ### Concrete inputs used by the witnesses and counterexamples below -/

def keyWitnessMain : Txn :=
  { id := "m1", date := "2024-02-02", amount := -999, description := ""
  , owner := "INDIVIDUAL", merchant := some { name := some " Starbucks " }, tags := [] }

def keyWitnessAddl : Txn :=
  { keyWitnessMain with id := "a1", merchant := some { name := some "STARBUCKS" } }

def merchantlessT1 : Txn :=
  { id := "m1", date := "2024-03-03", amount := -1200, description := ""
  , owner := "INDIVIDUAL", merchant := none, tags := [] }

def merchantlessT2 : Txn :=
  { merchantlessT1 with id := "a1", merchant := some { name := none } }

def c1Main1 : Txn :=
  { id := "m1", date := "2024-01-01", amount := -2500, description := ""
  , owner := "INDIVIDUAL", merchant := some { name := some "Cafe" }, tags := [] }

def c1Main2 : Txn := { c1Main1 with id := "m2" }

def c1Addl : Txn :=
  { id := "a1", date := "2024-01-01", amount := -2500, description := ""
  , owner := "INDIVIDUAL", merchant := some { name := some " CAFE " }, tags := [] }

/-- A candidate that carries the sync tag id under a different tag name:
it survives the name-based candidate filter, yet the id-based guard of the
main loop suppresses the label-set mutation. -/
def c1GuardAddl : Txn :=
  { id := "a1", date := "2024-01-01", amount := -2500, description := ""
  , owner := "INDIVIDUAL", merchant := some { name := some " CAFE " }
  , tags := [{ id := "tag1", name := "other" }] }

def c2MainShared : Txn :=
  { id := "m1", date := "2024-01-01", amount := -2500, description := ""
  , owner := "SHARED", merchant := some { name := some "Cafe" }, tags := [] }

def c2Addl : Txn :=
  { id := "a1", date := "2024-01-01", amount := -2500, description := ""
  , owner := "INDIVIDUAL", merchant := some { name := some " CAFE " }
  , tags := [{ id := "keep", name := "Groceries" }] }

def c2GuardAddl : Txn :=
  { id := "a1", date := "2024-01-01", amount := -2500, description := ""
  , owner := "INDIVIDUAL", merchant := some { name := some " CAFE " }
  , tags := [{ id := "tag1", name := "other" }] }

def c3Skip : Txn :=
  { id := "s1", date := "2024-04-04", amount := -100, description := ""
  , owner := "INDIVIDUAL", merchant := none, tags := [{ id := "t1", name := "Synced" }] }

def c3Main : Txn :=
  { id := "m1", date := "2024-04-04", amount := -100, description := ""
  , owner := "INDIVIDUAL", merchant := none, tags := [] }

def c3Addl : Txn :=
  { id := "a1", date := "2024-04-04", amount := -100, description := ""
  , owner := "INDIVIDUAL", merchant := none, tags := [] }

def c3TagNames : String → String := fun j => if j = "t1" then "synced" else j

/-! ### Index lemmas: the association-list index realizes key-filtering -/

theorem indexLookup_indexInsert (idx : List (MatchKey × List Txn)) (kI k : MatchKey)
    (t : Txn) :
    indexLookup (indexInsert idx kI t) k =
      if kI = k then indexLookup idx k ++ [t] else indexLookup idx k := by
  induction idx with
  | nil =>
      by_cases h : kI = k <;> simp [indexInsert, indexLookup, h]
  | cons hd rest ih =>
      obtain ⟨k0, b⟩ := hd
      by_cases h0 : k0 = kI
      · subst h0
        by_cases h : k0 = k
        · subst h
          simp [indexInsert, indexLookup]
        · simp [indexInsert, indexLookup, h]
      · by_cases h : k0 = k
        · subst h
          have hkI : kI ≠ k0 := fun he => h0 he.symm
          simp [indexInsert, indexLookup, h0, hkI]
        · simp [indexInsert, indexLookup, h0, h, ih]

theorem indexLookup_foldl (ts : List Txn) (idx : List (MatchKey × List Txn))
    (k : MatchKey) :
    indexLookup (ts.foldl (fun i t => indexInsert i (key_for t) t) idx) k =
      indexLookup idx k ++ bucketOf ts k := by
  induction ts generalizing idx with
  | nil => simp [bucketOf]
  | cons t ts ih =>
      simp only [List.foldl_cons, ih, indexLookup_indexInsert, bucketOf, List.filter_cons]
      by_cases h : key_for t = k
      · simp [h]
      · simp [h, bucketOf]

/-- The bucket the main loop looks up for a candidate is exactly the
main-card transactions with the candidate's key, in fetch order. -/
theorem indexLookup_buildIndex (mains : List Txn) (k : MatchKey) :
    indexLookup (buildIndex mains) k = bucketOf mains k := by
  simpa [buildIndex, indexLookup] using indexLookup_foldl mains [] k

/-! ### runLoop projections -/

theorem runLoop_muts (index : List (MatchKey × List Txn)) (tag_id : String)
    (dry_run : Bool) (cs : List Txn) (acc : RunResult) :
    (runLoop index tag_id dry_run cs acc).muts =
      acc.muts ++ (cs.map (fun a => (processCandidate index tag_id dry_run a).2)).flatten := by
  induction cs generalizing acc with
  | nil => simp [runLoop]
  | cons a rest ih => simp [runLoop, ih, stepResult]

theorem runLoop_log (index : List (MatchKey × List Txn)) (tag_id : String)
    (dry_run : Bool) (cs : List Txn) (acc : RunResult) :
    (runLoop index tag_id dry_run cs acc).log =
      acc.log ++ cs.map (fun a => (a, (processCandidate index tag_id dry_run a).1)) := by
  induction cs generalizing acc with
  | nil => simp [runLoop]
  | cons a rest ih => simp [runLoop, ih, stepResult]

theorem runLoop_countExistingShared (index : List (MatchKey × List Txn))
    (tag_id : String) (dry_run : Bool) (cs : List Txn) (acc : RunResult) :
    (runLoop index tag_id dry_run cs acc).countExistingShared =
      acc.countExistingShared +
        cs.countP (fun a =>
          decide ((processCandidate index tag_id dry_run a).1 = Classification.EXISTING_SHARED)) := by
  induction cs generalizing acc with
  | nil => simp [runLoop]
  | cons a rest ih =>
      simp only [runLoop, ih, stepResult, List.countP_cons]
      by_cases h : (processCandidate index tag_id dry_run a).1 = Classification.EXISTING_SHARED
      · simp [h]
        omega
      · simp [h]

theorem runLoop_countNewShared (index : List (MatchKey × List Txn))
    (tag_id : String) (dry_run : Bool) (cs : List Txn) (acc : RunResult) :
    (runLoop index tag_id dry_run cs acc).countNewShared =
      acc.countNewShared +
        cs.countP (fun a =>
          decide ((processCandidate index tag_id dry_run a).1 = Classification.NEW_SHARED)) := by
  induction cs generalizing acc with
  | nil => simp [runLoop]
  | cons a rest ih =>
      simp only [runLoop, ih, stepResult, List.countP_cons]
      by_cases h : (processCandidate index tag_id dry_run a).1 = Classification.NEW_SHARED
      · simp [h]
        omega
      · simp [h]

theorem runLoop_countNoMatch (index : List (MatchKey × List Txn))
    (tag_id : String) (dry_run : Bool) (cs : List Txn) (acc : RunResult) :
    (runLoop index tag_id dry_run cs acc).countNoMatch =
      acc.countNoMatch +
        cs.countP (fun a =>
          decide ((processCandidate index tag_id dry_run a).1 = Classification.NO_MATCH)) := by
  induction cs generalizing acc with
  | nil => simp [runLoop]
  | cons a rest ih =>
      simp only [runLoop, ih, stepResult, List.countP_cons]
      by_cases h : (processCandidate index tag_id dry_run a).1 = Classification.NO_MATCH
      · simp [h]
        omega
      · simp [h]

/-! ### processCandidate facts -/

/-- The classification does not depend on the dry-run flag. -/
theorem processCandidate_fst (index : List (MatchKey × List Txn)) (tag_id : String)
    (dry_run : Bool) (a : Txn) :
    (processCandidate index tag_id dry_run a).1 =
      (processCandidate index tag_id false a).1 := by
  simp only [processCandidate]
  split
  · rfl
  · split <;> rfl

/-- With the dry-run flag set, no candidate produces a mutation. -/
theorem processCandidate_dry (index : List (MatchKey × List Txn)) (tag_id : String)
    (a : Txn) :
    (processCandidate index tag_id true a).2 = [] := by
  simp only [processCandidate]
  split
  · rfl
  · split <;> rfl

/-- Each candidate bumps exactly one of the three counters. -/
theorem runLoop_count_sum (index : List (MatchKey × List Txn)) (tag_id : String)
    (dry_run : Bool) (cs : List Txn) (acc : RunResult) :
    (runLoop index tag_id dry_run cs acc).countExistingShared
      + (runLoop index tag_id dry_run cs acc).countNewShared
      + (runLoop index tag_id dry_run cs acc).countNoMatch
      = acc.countExistingShared + acc.countNewShared + acc.countNoMatch + cs.length := by
  induction cs generalizing acc with
  | nil => simp [runLoop]
  | cons a rest ih =>
      simp only [runLoop, ih, stepResult, List.length_cons]
      cases (processCandidate index tag_id dry_run a).1 <;> simp <;> omega

/-! ### Claim theorems -/

/-- C4: the matching key is a pure, deterministic function of date, amount
and the trimmed, lower-cased merchant name: any two transactions with equal
date and amount whose merchant names agree up to leading/trailing
whitespace and letter case get equal keys (and the single function key_for
is the one runEngine applies to both account lists). -/
theorem key_for_deterministic (t1 t2 : Txn) (hd : t1.date = t2.date)
    (ha : t1.amount = t2.amount)
    (hm : strLower (strStrip (merchantNameOf t1)) = strLower (strStrip (merchantNameOf t2))) :
    key_for t1 = key_for t2 := by
  simp [key_for, hd, ha, hm]

theorem key_for_deterministic_witness :
    key_for keyWitnessMain = key_for keyWitnessAddl :=
  key_for_deterministic keyWitnessMain keyWitnessAddl (by decide) (by decide) (by decide)

/-- C9: a transaction with no merchant record, or whose merchant record has
no name, contributes the empty string as the merchant component of its key,
so two such merchant-less transactions with equal date and amount get the
same key and match. -/
theorem merchantless_key_matches (t1 t2 : Txn)
    (h1 : t1.merchant = none ∨ ∃ m, t1.merchant = some m ∧ m.name = none)
    (h2 : t2.merchant = none ∨ ∃ m, t2.merchant = some m ∧ m.name = none)
    (hd : t1.date = t2.date) (ha : t1.amount = t2.amount) :
    (key_for t1).2.2 = "" ∧ key_for t1 = key_for t2 := by
  have e1 : merchantNameOf t1 = "" := by
    rcases h1 with h | ⟨m, hm, hn⟩
    · simp [merchantNameOf, h]
    · simp [merchantNameOf, hm, hn]
  have e2 : merchantNameOf t2 = "" := by
    rcases h2 with h | ⟨m, hm, hn⟩
    · simp [merchantNameOf, h]
    · simp [merchantNameOf, hm, hn]
  refine ⟨?_, ?_⟩
  · simp only [key_for, e1]
    decide
  · simp [key_for, hd, ha, e1, e2]

theorem merchantless_key_matches_witness :
    (key_for merchantlessT1).2.2 = "" ∧ key_for merchantlessT1 = key_for merchantlessT2 :=
  merchantless_key_matches merchantlessT1 merchantlessT2 (Or.inl rfl)
    (Or.inr ⟨{ name := none }, rfl, rfl⟩) rfl rfl

/-- C10: the run-mode flag defaults to dry-run; dry-run is disabled exactly
when the DRY_RUN environment variable is present and its lower-cased value
is the string "false". -/
theorem dry_run_default (v : Option String) :
    dryRunFlag v = false ↔ ∃ s, v = some s ∧ strLower s = "false" := by
  cases v with
  | none =>
      simp only [dryRunFlag, Option.getD]
      constructor
      · intro h
        exact absurd h (by decide)
      · rintro ⟨s, h, -⟩
        exact absurd h (by simp)
  | some s =>
      simp [dryRunFlag, Option.getD, not_not]

/-- C6: ensure_tag_id returns the id of a catalog tag whose name matches
the requested name case-insensitively, and when no catalog tag matches it
fails with the not-found message that tells the user to create the tag
first; it only reads the catalog, never extends it. -/
theorem ensure_tag_id_spec (tags : List Tag) (name : String) :
    ((∃ t ∈ tags, strLower t.name = strLower name) →
      ∃ t ∈ tags, strLower t.name = strLower name ∧ ensure_tag_id tags name = Except.ok t.id)
    ∧ ((∀ t ∈ tags, strLower t.name ≠ strLower name) →
      ensure_tag_id tags name = Except.error (tagNotFoundMessage name)) := by
  constructor
  · intro hex
    cases hfind : tags.find? (fun t => decide (strLower t.name = strLower name)) with
    | none =>
        rcases hex with ⟨t, ht, he⟩
        have := List.find?_eq_none.mp hfind t ht
        simp [he] at this
    | some t =>
        refine ⟨t, List.mem_of_find?_eq_some hfind, ?_, ?_⟩
        · simpa using List.find?_some hfind
        · simp [ensure_tag_id, hfind]
  · intro hall
    have hnone : tags.find? (fun t => decide (strLower t.name = strLower name)) = none := by
      rw [List.find?_eq_none]
      intro t ht
      simp [hall t ht]
    simp [ensure_tag_id, hnone]

theorem ensure_tag_id_spec_witness :
    ensure_tag_id ([] : List Tag) "synced" = Except.error (tagNotFoundMessage "synced") :=
  (ensure_tag_id_spec [] "synced").2 (by simp)

/-- C8: every filtered candidate lands in exactly one of the three
outcomes, so the three counters sum to the number of candidates. -/
theorem counters_partition (mains addls : List Txn) (tag_id sync_name : String)
    (dry_run : Bool) :
    (runEngine mains addls tag_id sync_name dry_run).countExistingShared
      + (runEngine mains addls tag_id sync_name dry_run).countNewShared
      + (runEngine mains addls tag_id sync_name dry_run).countNoMatch
      = (candidatesOf addls sync_name).length := by
  unfold runEngine
  rw [runLoop_count_sum]
  simp

/-- C5: with the dry-run flag set the run issues no mutation at all, yet
the three counters and the per-candidate classification log are the same
as a live run on the same input. -/
theorem dry_run_equivalence (mains addls : List Txn) (tag_id sync_name : String) :
    (runEngine mains addls tag_id sync_name true).muts = []
    ∧ (runEngine mains addls tag_id sync_name true).countExistingShared =
        (runEngine mains addls tag_id sync_name false).countExistingShared
    ∧ (runEngine mains addls tag_id sync_name true).countNewShared =
        (runEngine mains addls tag_id sync_name false).countNewShared
    ∧ (runEngine mains addls tag_id sync_name true).countNoMatch =
        (runEngine mains addls tag_id sync_name false).countNoMatch
    ∧ (runEngine mains addls tag_id sync_name true).log =
        (runEngine mains addls tag_id sync_name false).log := by
  unfold runEngine
  refine ⟨?_, ?_, ?_, ?_, ?_⟩
  · rw [runLoop_muts]
    simp [processCandidate_dry, List.flatten_eq_nil_iff]
  · rw [runLoop_countExistingShared, runLoop_countExistingShared]
    simp [processCandidate_fst]
  · rw [runLoop_countNewShared, runLoop_countNewShared]
    simp [processCandidate_fst]
  · rw [runLoop_countNoMatch, runLoop_countNoMatch]
    simp [processCandidate_fst]
  · rw [runLoop_log, runLoop_log]
    simp [processCandidate_fst]

/-- C1 (as amended): for a candidate whose key maps to a non-empty bucket
with no SHARED member, the engine classifies NEW_SHARED and, live, issues a
set-ownership mutation for every bucket member and then — provided the sync
tag id is not already among the candidate's tag ids — the single label-set
mutation on the candidate, in that order. -/
theorem new_shared_mutation_order (mains : List Txn) (addl : Txn) (tag_id : String)
    (hne : bucketOf mains (key_for addl) ≠ [])
    (hns : ∀ m ∈ bucketOf mains (key_for addl), isSharedOwner m = false)
    (hguard : tag_id ∉ tagIdsOf addl) :
    processCandidate (buildIndex mains) tag_id false addl =
      (Classification.NEW_SHARED,
        (bucketOf mains (key_for addl)).map (fun m => Mutation.setOwnerShared m.id)
          ++ [Mutation.updateTagsReplace addl.id (tagIdsOf addl ++ [tag_id])]) := by
  have hf : (bucketOf mains (key_for addl)).filter isSharedOwner = [] := by
    rw [List.filter_eq_nil_iff]
    intro m hm
    simp [hns m hm]
  simp only [processCandidate, indexLookup_buildIndex, labelMutations]
  rw [if_neg hne, if_neg (by simp [hf]), if_neg hguard]
  simp

theorem new_shared_mutation_order_witness :
    processCandidate (buildIndex [c1Main1, c1Main2]) "tag1" false c1Addl =
      (Classification.NEW_SHARED,
        [Mutation.setOwnerShared "m1", Mutation.setOwnerShared "m2",
          Mutation.updateTagsReplace "a1" ["tag1"]]) :=
  (new_shared_mutation_order [c1Main1, c1Main2] c1Addl "tag1"
    (by decide) (by decide) (by decide)).trans (by decide)

theorem new_shared_guard_counterexample :
    has_sync_tag c1GuardAddl "synced" = false
    ∧ runEngine [c1Main1] [c1GuardAddl] "tag1" "synced" false =
        { countExistingShared := 0, countNewShared := 1, countNoMatch := 0
        , log := [(c1GuardAddl, Classification.NEW_SHARED)]
        , muts := [Mutation.setOwnerShared "m1"] } := by
  decide

/-- C2 (as amended): for a candidate whose key maps to a bucket containing
a SHARED member, the engine classifies EXISTING_SHARED and, live, issues no
ownership mutation and — provided the sync tag id is not already among the
candidate's tag ids — exactly one label-set mutation whose new id list is
the candidate's existing tag ids plus the sync tag id. -/
theorem existing_shared_single_label (mains : List Txn) (addl : Txn) (tag_id : String)
    (hsh : ∃ m ∈ bucketOf mains (key_for addl), isSharedOwner m = true)
    (hguard : tag_id ∉ tagIdsOf addl) :
    processCandidate (buildIndex mains) tag_id false addl =
      (Classification.EXISTING_SHARED,
        [Mutation.updateTagsReplace addl.id (tagIdsOf addl ++ [tag_id])]) := by
  obtain ⟨m, hm, hms⟩ := hsh
  have hne : bucketOf mains (key_for addl) ≠ [] := List.ne_nil_of_mem hm
  have hf : (bucketOf mains (key_for addl)).filter isSharedOwner ≠ [] := by
    intro h
    exact absurd hms (by simpa using List.filter_eq_nil_iff.mp h m hm)
  simp only [processCandidate, indexLookup_buildIndex, labelMutations]
  rw [if_neg hne, if_pos hf, if_neg hguard]
  simp

theorem existing_shared_single_label_witness :
    processCandidate (buildIndex [c2MainShared]) "tag1" false c2Addl =
      (Classification.EXISTING_SHARED,
        [Mutation.updateTagsReplace "a1" ["keep", "tag1"]]) :=
  (existing_shared_single_label [c2MainShared] c2Addl "tag1"
    ⟨c2MainShared, by decide, by decide⟩ (by decide)).trans (by decide)

theorem existing_shared_guard_counterexample :
    has_sync_tag c2GuardAddl "synced" = false
    ∧ runEngine [c2MainShared] [c2GuardAddl] "tag1" "synced" false =
        { countExistingShared := 1, countNewShared := 0, countNoMatch := 0
        , log := [(c2GuardAddl, Classification.EXISTING_SHARED)]
        , muts := [] } := by
  decide

/-- The pagination loop collects exactly the records from `offset` on:
each round appends one page and advances by its length, and the loop stops
on reaching the total or an empty page. -/
theorem fetchPages_spec (all : List RawTxn) :
    ∀ (n offset : Nat) (acc : List Txn), all.length - offset ≤ n →
      fetchPages all offset acc = acc ++ (all.drop offset).map normalize := by
  intro n
  induction n with
  | zero =>
      intro offset acc h
      have hoff : all.length ≤ offset := by omega
      have hdrop : all.drop offset = [] := List.drop_eq_nil_of_le hoff
      rw [fetchPages]
      simp [hdrop]
  | succ n ih =>
      intro offset acc h
      rw [fetchPages]
      by_cases hstop :
          offset + ((all.drop offset).take 200).length ≥ all.length
            ∨ (all.drop offset).take 200 = []
      · rw [if_pos hstop]
        have hb : (all.drop offset).take 200 = all.drop offset := by
          rcases hstop with hge | hnil
          · have hlen := List.length_take 200 (all.drop offset)
            have hdl := List.length_drop offset all
            have hle : (all.drop offset).length ≤ 200 := by omega
            exact List.take_of_length_le hle
          · rcases List.take_eq_nil_iff.mp hnil with h200 | hd
            · exact absurd h200 (by norm_num)
            · rw [hd]
              simp
        rw [hb]
      · rw [if_neg hstop]
        push_neg at hstop
        obtain ⟨hlt, hne⟩ := hstop
        have hlen := List.length_take 200 (all.drop offset)
        have hdl := List.length_drop offset all
        have h200 : ((all.drop offset).take 200).length = 200 := by omega
        rw [ih (offset + ((all.drop offset).take 200).length) _ (by omega)]
        rw [List.append_assoc, ← List.map_append]
        have hsplit :
            (all.drop offset).take 200 ++ all.drop (offset + ((all.drop offset).take 200).length)
              = all.drop offset := by
          rw [h200, ← List.drop_drop]
          exact List.take_append_drop 200 (all.drop offset)
        rw [hsplit]

/-- C7: the pagination loop of the fetcher terminates against a paginated
source (fetchPages is a total function, by the decreasing measure of total
minus offset) and the returned sequence is the concatenation of all pages
in fetch order — the source's complete normalized transaction list. -/
theorem fetch_transactions_complete (all : List RawTxn) :
    fetch_transactions all = all.map normalize := by
  have h := fetchPages_spec all all.length 0 [] (by omega)
  simpa [fetch_transactions] using h

/-! ### Behavior of applying mutations to the remote state -/

theorem applyTxn_cons (f : String → String) (m : Mutation) (ms : List Mutation)
    (t : Txn) : applyTxn f (m :: ms) t = applyTxn f ms (applyMutTxn f t m) := by
  simp [applyTxn]

theorem applyMutTxn_id (f : String → String) (t : Txn) (m : Mutation) :
    (applyMutTxn f t m).id = t.id := by
  cases m with
  | setOwnerShared i => simp only [applyMutTxn]; split <;> rfl
  | updateTagsReplace i ids => simp only [applyMutTxn]; split <;> rfl

theorem applyMutTxn_key (f : String → String) (t : Txn) (m : Mutation) :
    key_for (applyMutTxn f t m) = key_for t := by
  cases m with
  | setOwnerShared i => simp only [applyMutTxn]; split <;> rfl
  | updateTagsReplace i ids => simp only [applyMutTxn]; split <;> rfl

theorem applyTxn_id (f : String → String) (ms : List Mutation) (t : Txn) :
    (applyTxn f ms t).id = t.id := by
  induction ms generalizing t with
  | nil => rfl
  | cons m rest ih => rw [applyTxn_cons, ih, applyMutTxn_id]

theorem applyTxn_key (f : String → String) (ms : List Mutation) (t : Txn) :
    key_for (applyTxn f ms t) = key_for t := by
  induction ms generalizing t with
  | nil => rfl
  | cons m rest ih => rw [applyTxn_cons, ih, applyMutTxn_key]

theorem isSharedOwner_set (t : Txn) : isSharedOwner { t with owner := "SHARED" } = true := by
  have h : strUpper "SHARED" = "SHARED" := by decide
  simp [isSharedOwner, h]

theorem applyMutTxn_shared (f : String → String) (t : Txn) (m : Mutation)
    (h : isSharedOwner t = true) : isSharedOwner (applyMutTxn f t m) = true := by
  cases m with
  | setOwnerShared i =>
      simp only [applyMutTxn]
      split
      · exact isSharedOwner_set t
      · exact h
  | updateTagsReplace i ids =>
      simp only [applyMutTxn]
      split
      · exact h
      · exact h

theorem applyTxn_shared (f : String → String) (ms : List Mutation) (t : Txn)
    (h : isSharedOwner t = true) : isSharedOwner (applyTxn f ms t) = true := by
  induction ms generalizing t with
  | nil => exact h
  | cons m rest ih => rw [applyTxn_cons]; exact ih _ (applyMutTxn_shared f t m h)

/-- Once the run has issued a set-ownership mutation for a transaction's
id, the re-fetched record is SHARED. -/
theorem applyTxn_shared_of_mem (f : String → String) (ms : List Mutation) (t : Txn)
    (h : Mutation.setOwnerShared t.id ∈ ms) : isSharedOwner (applyTxn f ms t) = true := by
  induction ms generalizing t with
  | nil => cases h
  | cons m rest ih =>
      rw [applyTxn_cons]
      rcases List.mem_cons.mp h with he | hrest
      · have hshared : isSharedOwner (applyMutTxn f t m) = true := by
          rw [← he]
          simp [applyMutTxn, isSharedOwner_set]
        exact applyTxn_shared f rest _ hshared
      · exact ih _ (by rw [applyMutTxn_id]; exact hrest)

theorem applyMutTxn_tagIds_mem (f : String → String) (tid : String) (t : Txn)
    (m : Mutation) (hok : MutOk tid m) (h : tid ∈ tagIdsOf t) :
    tid ∈ tagIdsOf (applyMutTxn f t m) := by
  cases m with
  | setOwnerShared i =>
      simp only [applyMutTxn]
      split
      · exact h
      · exact h
  | updateTagsReplace i ids =>
      simp only [applyMutTxn]
      split
      · simpa [tagIdsOf, List.map_map, Function.comp] using hok i ids rfl
      · exact h

theorem applyTxn_tagIds_mem (f : String → String) (tid : String) (ms : List Mutation)
    (t : Txn) (hms : ∀ m ∈ ms, MutOk tid m) (h : tid ∈ tagIdsOf t) :
    tid ∈ tagIdsOf (applyTxn f ms t) := by
  induction ms generalizing t with
  | nil => exact h
  | cons m rest ih =>
      rw [applyTxn_cons]
      exact ih (applyMutTxn f t m) (fun x hx => hms x (List.mem_cons_of_mem m hx))
        (applyMutTxn_tagIds_mem f tid t m (hms m (List.mem_cons_self _ _)) h)

/-- Tags freshly written by a tag-replacement that includes the sync tag id
make has_sync_tag true. -/
theorem has_sync_tag_replaced (f : String → String) (tid sn : String) (t : Txn)
    (ids : List String) (hname : strLower (f tid) = strLower sn) (hok : tid ∈ ids) :
    has_sync_tag { t with tags := ids.map (fun j => { id := j, name := f j }) } sn = true := by
  simp only [has_sync_tag, List.any_eq_true]
  exact ⟨{ id := tid, name := f tid }, List.mem_map_of_mem _ hok, by simp [hname]⟩

theorem applyMutTxn_sync (f : String → String) (tid sn : String) (t : Txn)
    (m : Mutation) (hname : strLower (f tid) = strLower sn) (hok : MutOk tid m)
    (h : has_sync_tag t sn = true) : has_sync_tag (applyMutTxn f t m) sn = true := by
  cases m with
  | setOwnerShared i =>
      simp only [applyMutTxn]
      split
      · exact h
      · exact h
  | updateTagsReplace i ids =>
      simp only [applyMutTxn]
      split
      · exact has_sync_tag_replaced f tid sn t ids hname (hok i ids rfl)
      · exact h

theorem applyTxn_sync (f : String → String) (tid sn : String) (ms : List Mutation)
    (t : Txn) (hname : strLower (f tid) = strLower sn)
    (hms : ∀ m ∈ ms, MutOk tid m) (h : has_sync_tag t sn = true) :
    has_sync_tag (applyTxn f ms t) sn = true := by
  induction ms generalizing t with
  | nil => exact h
  | cons m rest ih =>
      rw [applyTxn_cons]
      exact ih (applyMutTxn f t m) (fun x hx => hms x (List.mem_cons_of_mem m hx))
        (applyMutTxn_sync f tid sn t m hname (hms m (List.mem_cons_self _ _)) h)

/-- Once the run has issued a tag-replacement mutation for a transaction's
id, the re-fetched record carries the sync tag (by name). -/
theorem applyTxn_sync_of_mem (f : String → String) (tid sn : String)
    (ms : List Mutation) (t : Txn) (ids : List String)
    (hname : strLower (f tid) = strLower sn) (hms : ∀ m ∈ ms, MutOk tid m)
    (h : Mutation.updateTagsReplace t.id ids ∈ ms) :
    has_sync_tag (applyTxn f ms t) sn = true := by
  induction ms generalizing t with
  | nil => cases h
  | cons m rest ih =>
      rw [applyTxn_cons]
      rcases List.mem_cons.mp h with he | hrest
      · have hok : tid ∈ ids := hms m (List.mem_cons_self _ _) t.id ids he.symm
        have hsyn : has_sync_tag (applyMutTxn f t m) sn = true := by
          rw [← he]
          have hrepl := has_sync_tag_replaced f tid sn t ids hname hok
          simp [applyMutTxn, hrepl]
        exact applyTxn_sync f tid sn rest _ hname
          (fun x hx => hms x (List.mem_cons_of_mem m hx)) hsyn
      · exact ih (applyMutTxn f t m) (fun x hx => hms x (List.mem_cons_of_mem m hx))
          (by rw [applyMutTxn_id]; exact hrest)

/-! ### Case lemmas for one candidate, and the shape of issued mutations -/

theorem labelMutations_mem (tid : String) (a : Txn) (h : tid ∈ tagIdsOf a) :
    labelMutations tid a = [] := by
  simp [labelMutations, h]

theorem labelMutations_not_mem (tid : String) (a : Txn) (h : tid ∉ tagIdsOf a) :
    labelMutations tid a = [Mutation.updateTagsReplace a.id (tagIdsOf a ++ [tid])] := by
  simp [labelMutations, h]

theorem processCandidate_nomatch (mains : List Txn) (tid : String) (d : Bool) (a : Txn)
    (hB : bucketOf mains (key_for a) = []) :
    processCandidate (buildIndex mains) tid d a = (Classification.NO_MATCH, []) := by
  simp [processCandidate, indexLookup_buildIndex, hB]

theorem processCandidate_existing (mains : List Txn) (tid : String) (a : Txn)
    (hne : bucketOf mains (key_for a) ≠ [])
    (hsh : (bucketOf mains (key_for a)).filter isSharedOwner ≠ []) :
    processCandidate (buildIndex mains) tid false a =
      (Classification.EXISTING_SHARED, labelMutations tid a) := by
  simp only [processCandidate, indexLookup_buildIndex]
  rw [if_neg hne, if_pos hsh]
  simp

theorem processCandidate_new (mains : List Txn) (tid : String) (a : Txn)
    (hne : bucketOf mains (key_for a) ≠ [])
    (hsh : (bucketOf mains (key_for a)).filter isSharedOwner = []) :
    processCandidate (buildIndex mains) tid false a =
      (Classification.NEW_SHARED,
        (bucketOf mains (key_for a)).map (fun m => Mutation.setOwnerShared m.id)
          ++ labelMutations tid a) := by
  simp only [processCandidate, indexLookup_buildIndex]
  rw [if_neg hne, if_neg (by simp [hsh])]
  simp

theorem labelMutations_mutOk (tid : String) (a : Txn) :
    ∀ m ∈ labelMutations tid a, MutOk tid m := by
  intro m hm
  by_cases h : tid ∈ tagIdsOf a
  · rw [labelMutations_mem tid a h] at hm
    cases hm
  · rw [labelMutations_not_mem tid a h] at hm
    rcases List.mem_singleton.mp hm with rfl
    intro i ids he
    injection he with h1 h2
    rw [← h2]
    exact List.mem_append_right _ (List.mem_singleton_self tid)

theorem processCandidate_mutOk (mains : List Txn) (tid : String) (a : Txn) :
    ∀ m ∈ (processCandidate (buildIndex mains) tid false a).2, MutOk tid m := by
  intro m hm
  by_cases hB : bucketOf mains (key_for a) = []
  · rw [processCandidate_nomatch mains tid false a hB] at hm
    cases hm
  · by_cases hsh : (bucketOf mains (key_for a)).filter isSharedOwner = []
    · rw [processCandidate_new mains tid a hB hsh] at hm
      rcases List.mem_append.mp hm with hms | hml
      · rcases List.mem_map.mp hms with ⟨x, hx, rfl⟩
        intro i ids he
        simp at he
      · exact labelMutations_mutOk tid a m hml
    · rw [processCandidate_existing mains tid a hB hsh] at hm
      exact labelMutations_mutOk tid a m hm

theorem runEngine_muts_eq (mains addls : List Txn) (tid sn : String) (d : Bool) :
    (runEngine mains addls tid sn d).muts =
      ((candidatesOf addls sn).map
        (fun a => (processCandidate (buildIndex mains) tid d a).2)).flatten := by
  unfold runEngine
  rw [runLoop_muts]
  simp

theorem runEngine_mutOk (mains addls : List Txn) (tid sn : String) :
    ∀ m ∈ (runEngine mains addls tid sn false).muts, MutOk tid m := by
  intro m hm
  rw [runEngine_muts_eq] at hm
  rcases List.mem_flatten.mp hm with ⟨l, hl, hml⟩
  rcases List.mem_map.mp hl with ⟨a, ha, rfl⟩
  exact processCandidate_mutOk mains tid a m hml

theorem runEngine_mut_mem (mains addls : List Txn) (tid sn : String) (a : Txn)
    (ha : a ∈ candidatesOf addls sn) (m : Mutation)
    (hm : m ∈ (processCandidate (buildIndex mains) tid false a).2) :
    m ∈ (runEngine mains addls tid sn false).muts := by
  rw [runEngine_muts_eq]
  exact List.mem_flatten.mpr ⟨_, List.mem_map_of_mem _ ha, hm⟩

theorem filter_map_comm {α : Type} (g : α → α) (p : α → Bool) (l : List α)
    (hp : ∀ x, p (g x) = p x) : (l.map g).filter p = (l.filter p).map g := by
  induction l with
  | nil => rfl
  | cons x xs ih =>
      simp only [List.map_cons, List.filter_cons, hp x]
      cases hx : p x <;> simp [hx, ih]

/-- Applying mutations never changes a record's matching key, so the
re-fetched bucket of a key is the image of the old bucket. -/
theorem bucketOf_applyMuts (f : String → String) (M : List Mutation)
    (mains : List Txn) (k : MatchKey) :
    bucketOf (applyMuts f M mains) k = (bucketOf mains k).map (applyTxn f M) := by
  unfold bucketOf applyMuts
  exact filter_map_comm (applyTxn f M) _ mains (fun x => by rw [applyTxn_key])

/-- Re-running the engine on the state produced by applying a live run's
mutations yields no mutation at all. -/
theorem second_run_no_mutations (mains addls : List Txn) (tid sn : String)
    (f : String → String) (hname : strLower (f tid) = strLower sn) :
    (runEngine (applyMuts f (runEngine mains addls tid sn false).muts mains)
      (applyMuts f (runEngine mains addls tid sn false).muts addls)
      tid sn false).muts = [] := by
  set M := (runEngine mains addls tid sn false).muts with hM
  have hH : ∀ m ∈ M, MutOk tid m := runEngine_mutOk mains addls tid sn
  rw [runEngine_muts_eq, List.flatten_eq_nil_iff]
  intro l hl
  rcases List.mem_map.mp hl with ⟨c, hc, rfl⟩
  rcases List.mem_filter.mp hc with ⟨hcmem, hcflag⟩
  have hcns : has_sync_tag c sn = false := by simpa using hcflag
  rcases List.mem_map.mp hcmem with ⟨a, ha, rfl⟩
  by_cases hsyn : has_sync_tag a sn = true
  · exact absurd (applyTxn_sync f tid sn M a hname hH hsyn) (by simp [hcns])
  · have hsynf : has_sync_tag a sn = false := Bool.eq_false_iff.mpr hsyn
    have ha1 : a ∈ candidatesOf addls sn := List.mem_filter.mpr ⟨ha, by simp [hsynf]⟩
    have hkey : key_for (applyTxn f M a) = key_for a := applyTxn_key f M a
    have hb2 : bucketOf (applyMuts f M mains) (key_for (applyTxn f M a))
        = (bucketOf mains (key_for a)).map (applyTxn f M) := by
      rw [hkey, bucketOf_applyMuts]
    by_cases hB : bucketOf mains (key_for a) = []
    · have hB2 : bucketOf (applyMuts f M mains) (key_for (applyTxn f M a)) = [] := by
        rw [hb2, hB]
        rfl
      rw [processCandidate_nomatch _ tid false _ hB2]
    · have hB2ne : bucketOf (applyMuts f M mains) (key_for (applyTxn f M a)) ≠ [] := by
        rw [hb2]
        simpa using hB
      by_cases hg : tid ∈ tagIdsOf a
      · -- run 1 issued no tag mutation for this candidate; in run 2 its
        -- bucket has a SHARED member, and the id guard still holds
        have hg2 : tid ∈ tagIdsOf (applyTxn f M a) := applyTxn_tagIds_mem f tid M a hH hg
        have hsh2 : (bucketOf (applyMuts f M mains)
            (key_for (applyTxn f M a))).filter isSharedOwner ≠ [] := by
          by_cases hshared1 : (bucketOf mains (key_for a)).filter isSharedOwner = []
          · -- run 1 was NEW_SHARED: every bucket member got an ownership mutation
            rcases List.exists_mem_of_ne_nil _ hB with ⟨m0, hm0⟩
            have hmut : Mutation.setOwnerShared m0.id ∈ M := by
              apply runEngine_mut_mem mains addls tid sn a ha1
              rw [processCandidate_new mains tid a hB hshared1]
              exact List.mem_append_left _ (List.mem_map_of_mem _ hm0)
            have hshared2 : isSharedOwner (applyTxn f M m0) = true :=
              applyTxn_shared_of_mem f M m0 hmut
            apply List.ne_nil_of_mem
            exact List.mem_filter.mpr ⟨by rw [hb2]; exact List.mem_map_of_mem _ hm0, hshared2⟩
          · -- run 1 was EXISTING_SHARED: the shared member stays shared
            rcases List.exists_mem_of_ne_nil _ hshared1 with ⟨m0, hm0⟩
            rcases List.mem_filter.mp hm0 with ⟨hm0B, hm0sh⟩
            apply List.ne_nil_of_mem
            refine List.mem_filter.mpr ⟨by rw [hb2]; exact List.mem_map_of_mem _ hm0B, ?_⟩
            exact applyTxn_shared f M m0 hm0sh
        rw [processCandidate_existing _ tid _ hB2ne hsh2]
        exact labelMutations_mem tid _ hg2
      · -- run 1 issued the tag mutation, so in run 2 this record carries
        -- the sync tag and cannot be a candidate: contradiction
        have hthere : Mutation.updateTagsReplace a.id (tagIdsOf a ++ [tid]) ∈ M := by
          by_cases hshared1 : (bucketOf mains (key_for a)).filter isSharedOwner = []
          · apply runEngine_mut_mem mains addls tid sn a ha1
            rw [processCandidate_new mains tid a hB hshared1]
            refine List.mem_append_right _ ?_
            rw [labelMutations_not_mem tid a hg]
            exact List.mem_singleton_self _
          · apply runEngine_mut_mem mains addls tid sn a ha1
            rw [processCandidate_existing mains tid a hB hshared1]
            rw [labelMutations_not_mem tid a hg]
            exact List.mem_singleton_self _
        have hsync2 := applyTxn_sync_of_mem f tid sn M a (tagIdsOf a ++ [tid]) hname hH hthere
        exact absurd hsync2 (by simp [hcns])

/-- C3: an additional-card transaction already carrying the sync tag (by
name, any case) is excluded from the candidates entirely — the run's
result, its log included, is as if the transaction were absent — and the
engine is idempotent: re-running it on the remote state produced by
applying a live run's mutations (tag names resolved through a catalog
`tagNameOf` that gives the sync tag id a name matching the sync tag name)
issues zero mutations. -/
theorem sync_filter_and_idempotence
    (mains pre post addls : List Txn) (t : Txn) (tid sn : String)
    (d : Bool) (tagNameOf : String → String)
    (hskip : has_sync_tag t sn = true)
    (hname : strLower (tagNameOf tid) = strLower sn) :
    runEngine mains (pre ++ t :: post) tid sn d = runEngine mains (pre ++ post) tid sn d
    ∧ (runEngine (applyMuts tagNameOf (runEngine mains addls tid sn false).muts mains)
        (applyMuts tagNameOf (runEngine mains addls tid sn false).muts addls)
        tid sn false).muts = [] := by
  constructor
  · have hc : candidatesOf (pre ++ t :: post) sn = candidatesOf (pre ++ post) sn := by
      unfold candidatesOf
      rw [List.filter_append, List.filter_append, List.filter_cons]
      simp [hskip]
    unfold runEngine
    rw [hc]
  · exact second_run_no_mutations mains addls tid sn tagNameOf hname

theorem sync_filter_and_idempotence_witness :
    (runEngine [c3Main] ([] ++ c3Skip :: [c3Addl]) "t1" "synced" false
        = runEngine [c3Main] ([] ++ [c3Addl]) "t1" "synced" false)
    ∧ (runEngine
        (applyMuts c3TagNames (runEngine [c3Main] [c3Addl] "t1" "synced" false).muts [c3Main])
        (applyMuts c3TagNames (runEngine [c3Main] [c3Addl] "t1" "synced" false).muts [c3Addl])
        "t1" "synced" false).muts = [] :=
  sync_filter_and_idempotence [c3Main] [] [c3Addl] [c3Addl] c3Skip "t1" "synced" false
    c3TagNames (by decide) (by decide)

end SyncAmex
